import Mathlib

/-!
# Verification of the hacking simulation (`src/hacking/simulation 2.py`)

Shallow embedding of the `HackingSimulation` class and its helpers.
Python `int` is modelled by `ℤ` (the step cursor, which starts at 0 and is
only ever incremented, by `ℕ`), Python `float` by `ℚ`, and Python `dict`
by an insertion-ordered association list.  Calls to `random.random()` are
modelled by an explicit stream `rng : ℕ → ℚ` of draws, consumed in program
order: the embedding threads the index of the next draw.
-/

namespace SysShadow

/-- Python `int(q)` on an exact rational: truncation toward zero. -/
def pyTrunc (q : ℚ) : ℤ := if 0 ≤ q then ⌊q⌋ else ⌈q⌉

/-- Python `d.get(k, default)` on an association list. -/
def dictGet (d : List (String × ℤ)) (k : String) (default : ℤ) : ℤ :=
  match d.find? (fun p => p.1 == k) with
  | some p => p.2
  | none => default

/-- `SecuritySystem` dataclass.  `detection_chance` is set by
`__post_init__` to `0.1 * level`; the structure stores it as a field,
exactly as the Python object does. -/
structure SecuritySystem where
  name : String
  level : ℤ
  vulnerabilities : List String
  is_active : Bool
  detection_chance : ℚ
  deriving Repr, DecidableEq

/-- Construction of a `SecuritySystem` with the dataclass defaults
(`is_active = True`) followed by `__post_init__`, which overwrites
`detection_chance` with `0.1 * self.level`. -/
def SecuritySystem.make (name : String) (level : ℤ)
    (vulnerabilities : List String) : SecuritySystem :=
  { name := name, level := level, vulnerabilities := vulnerabilities,
    is_active := true, detection_chance := (1/10 : ℚ) * level }

/-- `HackingStep` dataclass.  `required_skills` keeps the Python dict's
insertion order. -/
structure HackingStep where
  name : String
  description : String
  required_skills : List (String × ℤ)
  success_chance : ℚ
  trace_increase : ℤ
  time_cost : ℤ
  deriving Repr, DecidableEq

/-- State of a `HackingSimulation` object. -/
structure HackingSimulation where
  difficulty : ℤ
  current_step : ℕ
  completed_steps : List String
  trace_level : ℤ
  security_systems : List SecuritySystem
  hacking_steps : List HackingStep
  deriving Repr

/-- The loop at the end of `_generate_security_systems`:
`system.is_active = random.random() < (0.5 + (self.difficulty * 0.05))`,
run over the systems in order, one draw per system. -/
def activateSystems (difficulty : ℤ) (rng : ℕ → ℚ) (i : ℕ) :
    List SecuritySystem → List SecuritySystem
  | [] => []
  | s :: rest =>
      { s with is_active :=
          decide (rng i < (1/2 : ℚ) + difficulty * (5/100 : ℚ)) } ::
        activateSystems difficulty rng (i + 1) rest

/-- `HackingSimulation._generate_security_systems`. -/
def generate_security_systems (difficulty : ℤ) (rng : ℕ → ℚ) :
    List SecuritySystem :=
  activateSystems difficulty rng 0
    [ SecuritySystem.make "Firewall" (max 1 (difficulty - 1))
        ["port_scan", "protocol_weakness", "misconfiguration"],
      SecuritySystem.make "Intrusion Detection" (max 1 (difficulty - 2))
        ["false_positive", "protocol_weakness", "resource_exhaustion"],
      SecuritySystem.make "Access Control" difficulty
        ["weak_passwords", "privilege_escalation", "session_hijacking"],
      SecuritySystem.make "Encryption" (max 1 (difficulty - 1))
        ["weak_algorithm", "key_management", "implementation_flaw"] ]

/-- `HackingSimulation._generate_hacking_steps`: the fixed five-step
catalog. -/
def generate_hacking_steps : List HackingStep :=
  [ { name := "Initial Scan",
      description := "Scan the target system for vulnerabilities",
      required_skills := [("networking", 1), ("hacking", 1)],
      success_chance := 8/10, trace_increase := 5, time_cost := 10 },
    { name := "Firewall Bypass",
      description := "Attempt to bypass the firewall",
      required_skills := [("hacking", 2), ("stealth", 1)],
      success_chance := 7/10, trace_increase := 10, time_cost := 15 },
    { name := "System Access",
      description := "Gain access to the target system",
      required_skills := [("hacking", 3), ("programming", 2)],
      success_chance := 6/10, trace_increase := 15, time_cost := 20 },
    { name := "Data Extraction",
      description := "Extract sensitive data from the system",
      required_skills := [("hacking", 4), ("stealth", 3)],
      success_chance := 5/10, trace_increase := 20, time_cost := 25 },
    { name := "Cover Tracks",
      description := "Remove evidence of the intrusion",
      required_skills := [("hacking", 3), ("stealth", 4)],
      success_chance := 7/10, trace_increase := 5, time_cost := 15 } ]

/-- `HackingSimulation.__init__(difficulty)`.  The draws used by
`_generate_security_systems` to activate systems are passed explicitly. -/
def HackingSimulation.init (difficulty : ℤ) (rng : ℕ → ℚ) :
    HackingSimulation :=
  { difficulty := difficulty, current_step := 0, completed_steps := [],
    trace_level := 0,
    security_systems := generate_security_systems difficulty rng,
    hacking_steps := generate_hacking_steps }

/-- `HackingSimulation.get_current_step`. -/
def HackingSimulation.get_current_step (sim : HackingSimulation) :
    Option HackingStep :=
  if h : sim.current_step < sim.hacking_steps.length then
    some (sim.hacking_steps.get ⟨sim.current_step, h⟩)
  else none

/-- The skill-gate loop of `attempt_step`: the first required skill on
which the player falls short, if any (Python dict iteration order is
insertion order). -/
def findInsufficient (player_skills : List (String × ℤ)) :
    List (String × ℤ) → Option String
  | [] => none
  | (skill, level) :: rest =>
      if dictGet player_skills skill 0 < level then some skill
      else findInsufficient player_skills rest

/-- `skill_bonus` in `attempt_step`:
`sum((player_skills.get(skill, 0) - level) * 0.05 for skill, level in
step.required_skills.items())`. -/
def skillBonus (step : HackingStep) (player_skills : List (String × ℤ)) : ℚ :=
  (step.required_skills.map
    (fun p => ((dictGet player_skills p.1 0 : ℚ) - (p.2 : ℚ)) * (5/100 : ℚ))).sum

/-- `final_chance = min(0.95, base_chance + skill_bonus)`. -/
def finalChance (step : HackingStep) (player_skills : List (String × ℤ)) : ℚ :=
  min (95/100 : ℚ) (step.success_chance + skillBonus step player_skills)

/-- The security-system loop at the end of `attempt_step`:
`if system.is_active and random.random() < system.detection_chance:
trace_increase += int(system.detection_chance * 10)`.  A draw is consumed
only when `is_active` holds (Python `and` short-circuits). -/
def securityLoop (rng : ℕ → ℚ) (i : ℕ) (acc : ℤ) :
    List SecuritySystem → ℤ
  | [] => acc
  | s :: rest =>
      if s.is_active then
        if rng i < s.detection_chance then
          securityLoop rng (i + 1) (acc + pyTrunc (s.detection_chance * 10)) rest
        else securityLoop rng (i + 1) acc rest
      else securityLoop rng i acc rest

/-- The `(success, message, trace_increase)` tuple returned by
`attempt_step`. -/
structure StepResult where
  success : Bool
  message : String
  trace_increase : ℤ
  deriving Repr, DecidableEq

/-- `HackingSimulation.attempt_step(player_skills)`.  `rng 0` is the
success roll; subsequent draws feed the security-system loop.  Returns
the updated object state together with the returned tuple. -/
def HackingSimulation.attempt_step (sim : HackingSimulation)
    (player_skills : List (String × ℤ)) (rng : ℕ → ℚ) :
    HackingSimulation × StepResult :=
  match sim.get_current_step with
  | none => (sim, ⟨false, "No more steps available", 0⟩)
  | some step =>
    match findInsufficient player_skills step.required_skills with
    | some skill =>
        (sim, ⟨false, "Insufficient " ++ skill ++ " skill level", 0⟩)
    | none =>
      let success := decide (rng 0 < finalChance step player_skills)
      let sim1 :=
        if success then
          { sim with
              completed_steps := sim.completed_steps ++ [step.name],
              current_step := sim.current_step + 1 }
        else sim
      let message :=
        if success then "Successfully completed " ++ step.name
        else "Failed to complete " ++ step.name
      let base := if success then step.trace_increase else step.trace_increase * 2
      let trace_increase := securityLoop rng 1 base sim.security_systems
      ({ sim1 with trace_level := sim1.trace_level + trace_increase },
       ⟨success, message, trace_increase⟩)

/-- `HackingSimulation.is_complete`. -/
def HackingSimulation.is_complete (sim : HackingSimulation) : Bool :=
  decide (sim.hacking_steps.length ≤ sim.current_step)

/-- States reachable from some `HackingSimulation(difficulty)` construction
by a sequence of `attempt_step` calls, with arbitrary skill dictionaries
and arbitrary random draws. -/
inductive Reachable : HackingSimulation → Prop
  | init (difficulty : ℤ) (rng : ℕ → ℚ) :
      Reachable (HackingSimulation.init difficulty rng)
  | step (sim : HackingSimulation) (ps : List (String × ℤ)) (rng : ℕ → ℚ)
      (h : Reachable sim) : Reachable ((sim.attempt_step ps rng).1)

/-- The total detection surcharge described by the spec: each *active*
security system contributes `int(detection_chance * 10)` exactly when its
own detection draw falls below its `detection_chance`; inactive systems
consume no draw. -/
def detectionBonus (rng : ℕ → ℚ) (i : ℕ) : List SecuritySystem → ℤ
  | [] => 0
  | s :: rest =>
      (if s.is_active = true ∧ rng i < s.detection_chance
       then pyTrunc (s.detection_chance * 10) else 0)
      + detectionBonus rng (if s.is_active then i + 1 else i) rest

/-- Number of active systems strictly before position `k`; the detection
draw of the system at position `k` is draw `i + activeBefore systems k`
when the loop starts at draw index `i`. -/
def activeBefore (systems : List SecuritySystem) (k : ℕ) : ℕ :=
  ((systems.take k).filter (fun s => s.is_active)).length

/-- The same surcharge, written as a sum over the positions of the system
list, with each system's detection draw located explicitly. -/
def detectionBonusIdx (systems : List SecuritySystem) (rng : ℕ → ℚ)
    (i : ℕ) : ℤ :=
  ((List.range systems.length).map (fun k =>
    match systems[k]? with
    | some s =>
        if s.is_active = true ∧ rng (i + activeBefore systems k) < s.detection_chance
        then pyTrunc (s.detection_chance * 10) else 0
    | none => 0)).sum

lemma activeBefore_zero (systems : List SecuritySystem) :
    activeBefore systems 0 = 0 := by
  simp [activeBefore]

lemma activeBefore_cons_succ (s : SecuritySystem)
    (rest : List SecuritySystem) (k : ℕ) :
    activeBefore (s :: rest) (k + 1)
      = (if s.is_active then 1 else 0) + activeBefore rest k := by
  simp only [activeBefore, List.take_succ_cons, List.filter_cons]
  cases h : s.is_active <;> simp [h, Nat.add_comm]

lemma securityLoop_eq_add (rng : ℕ → ℚ) (systems : List SecuritySystem) :
    ∀ (i : ℕ) (acc : ℤ),
      securityLoop rng i acc systems = acc + detectionBonus rng i systems := by
  induction systems with
  | nil => intro i acc; simp [securityLoop, detectionBonus]
  | cons s rest ih =>
      intro i acc
      by_cases ha : s.is_active
      · by_cases hr : rng i < s.detection_chance
        · have h1 : securityLoop rng i acc (s :: rest)
              = securityLoop rng (i+1) (acc + pyTrunc (s.detection_chance * 10)) rest := by
            simp [securityLoop, ha, hr]
          have h2 : detectionBonus rng i (s :: rest)
              = pyTrunc (s.detection_chance * 10) + detectionBonus rng (i+1) rest := by
            simp [detectionBonus, ha, hr]
          rw [h1, ih, h2]; ring
        · have h1 : securityLoop rng i acc (s :: rest)
              = securityLoop rng (i+1) acc rest := by
            simp [securityLoop, ha, hr]
          have h2 : detectionBonus rng i (s :: rest)
              = detectionBonus rng (i+1) rest := by
            simp [detectionBonus, ha, hr]
          rw [h1, ih, h2]
      · have h1 : securityLoop rng i acc (s :: rest)
            = securityLoop rng i acc rest := by
          simp [securityLoop, ha]
        have h2 : detectionBonus rng i (s :: rest)
            = detectionBonus rng i rest := by
          simp [detectionBonus, ha]
        rw [h1, ih, h2]

lemma detectionBonus_eq_idx (rng : ℕ → ℚ) (systems : List SecuritySystem) :
    ∀ i : ℕ, detectionBonus rng i systems = detectionBonusIdx systems rng i := by
  induction systems with
  | nil => intro i; simp [detectionBonus, detectionBonusIdx]
  | cons s rest ih =>
      intro i
      have hidx : ∀ k, i + activeBefore (s :: rest) (k + 1)
          = (if s.is_active then i + 1 else i) + activeBefore rest k := by
        intro k
        rw [activeBefore_cons_succ]
        cases h : s.is_active with
        | false => simp [h]
        | true => simp only [h, if_true]; omega
      simp only [detectionBonus, detectionBonusIdx, List.length_cons,
        List.range_succ_eq_map, List.map_cons, List.map_map, List.sum_cons]
      congr 1
      · simp [activeBefore_zero]
      · rw [ih]
        simp only [detectionBonusIdx]
        congr 1
        apply List.map_congr_left
        intro k hk
        simp only [Function.comp_apply, Nat.succ_eq_add_one,
          List.getElem?_cons_succ, hidx]

lemma le_securityLoop (rng : ℕ → ℚ) (hrng : ∀ j, 0 ≤ rng j) :
    ∀ (systems : List SecuritySystem) (i : ℕ) (acc : ℤ),
      acc ≤ securityLoop rng i acc systems := by
  intro systems
  induction systems with
  | nil => intro i acc; simp [securityLoop]
  | cons s rest ih =>
      intro i acc
      by_cases ha : s.is_active
      · by_cases hr : rng i < s.detection_chance
        · have hdc : (0:ℚ) < s.detection_chance := lt_of_le_of_lt (hrng i) hr
          have hT : (0:ℤ) ≤ pyTrunc (s.detection_chance * 10) := by
            have h10 : (0:ℚ) ≤ s.detection_chance * 10 := by positivity
            simp only [pyTrunc, if_pos h10]
            exact Int.le_floor.mpr (by exact_mod_cast h10)
          calc acc ≤ acc + pyTrunc (s.detection_chance * 10) := by omega
            _ ≤ securityLoop rng (i+1) (acc + pyTrunc (s.detection_chance * 10)) rest := ih _ _
            _ = securityLoop rng i acc (s :: rest) := by
                simp [securityLoop, ha, hr]
        · simpa [securityLoop, ha, hr] using ih (i+1) acc
      · simpa [securityLoop, ha] using ih i acc

lemma findInsufficient_eq_none_iff (ps req : List (String × ℤ)) :
    findInsufficient ps req = none ↔ ∀ p ∈ req, p.2 ≤ dictGet ps p.1 0 := by
  induction req with
  | nil => simp [findInsufficient]
  | cons hd tl ih =>
      obtain ⟨sk, lv⟩ := hd
      by_cases h : dictGet ps sk 0 < lv
      · simp only [findInsufficient, if_pos h]
        simp only [List.mem_cons, forall_eq_or_imp]
        constructor
        · intro hc; exact absurd hc (by simp)
        · intro hc; exact absurd hc.1 (by omega)
      · simp only [findInsufficient, if_neg h, ih]
        simp only [List.mem_cons, forall_eq_or_imp]
        constructor
        · intro hall; exact ⟨by omega, hall⟩
        · intro hall; exact hall.2

lemma findInsufficient_isSome_iff (ps req : List (String × ℤ)) :
    (findInsufficient ps req).isSome = true
      ↔ ∃ p ∈ req, dictGet ps p.1 0 < p.2 := by
  rw [Option.isSome_iff_ne_none]
  constructor
  · intro h
    by_contra hc
    push_neg at hc
    exact h ((findInsufficient_eq_none_iff ps req).mpr hc)
  · intro ⟨p, hp, hlt⟩ h
    have := (findInsufficient_eq_none_iff ps req).mp h p hp
    omega

lemma get_current_step_eq_some {sim : HackingSimulation} {step : HackingStep}
    (h : sim.get_current_step = some step) :
    sim.current_step < sim.hacking_steps.length ∧
    sim.hacking_steps[sim.current_step]? = some step := by
  unfold HackingSimulation.get_current_step at h
  split at h
  case isTrue hh =>
    refine ⟨hh, ?_⟩
    rw [List.getElem?_eq_getElem hh]
    simpa using h
  case isFalse hh => cases h

lemma get_current_step_eq_none {sim : HackingSimulation}
    (h : ¬ sim.current_step < sim.hacking_steps.length) :
    sim.get_current_step = none := by
  unfold HackingSimulation.get_current_step
  exact dif_neg h

lemma attempt_step_no_step (sim : HackingSimulation)
    (ps : List (String × ℤ)) (rng : ℕ → ℚ)
    (h : sim.get_current_step = none) :
    sim.attempt_step ps rng = (sim, ⟨false, "No more steps available", 0⟩) := by
  simp [HackingSimulation.attempt_step, h]

lemma attempt_step_gate_fail (sim : HackingSimulation) (step : HackingStep)
    (sk : String) (ps : List (String × ℤ)) (rng : ℕ → ℚ)
    (hget : sim.get_current_step = some step)
    (hfail : findInsufficient ps step.required_skills = some sk) :
    sim.attempt_step ps rng
      = (sim, ⟨false, "Insufficient " ++ sk ++ " skill level", 0⟩) := by
  simp [HackingSimulation.attempt_step, hget, hfail]

lemma attempt_step_success_eq (sim : HackingSimulation) (step : HackingStep)
    (ps : List (String × ℤ)) (rng : ℕ → ℚ)
    (hget : sim.get_current_step = some step)
    (hgate : findInsufficient ps step.required_skills = none)
    (hroll : rng 0 < finalChance step ps) :
    sim.attempt_step ps rng =
      ({ sim with
          completed_steps := sim.completed_steps ++ [step.name],
          current_step := sim.current_step + 1,
          trace_level := sim.trace_level
            + securityLoop rng 1 step.trace_increase sim.security_systems },
       ⟨true, "Successfully completed " ++ step.name,
        securityLoop rng 1 step.trace_increase sim.security_systems⟩) := by
  simp [HackingSimulation.attempt_step, hget, hgate, hroll]

lemma attempt_step_failure_eq (sim : HackingSimulation) (step : HackingStep)
    (ps : List (String × ℤ)) (rng : ℕ → ℚ)
    (hget : sim.get_current_step = some step)
    (hgate : findInsufficient ps step.required_skills = none)
    (hroll : ¬ rng 0 < finalChance step ps) :
    sim.attempt_step ps rng =
      ({ sim with
          trace_level := sim.trace_level
            + securityLoop rng 1 (step.trace_increase * 2) sim.security_systems },
       ⟨false, "Failed to complete " ++ step.name,
        securityLoop rng 1 (step.trace_increase * 2) sim.security_systems⟩) := by
  simp [HackingSimulation.attempt_step, hget, hgate, hroll]

lemma generate_hacking_steps_length : generate_hacking_steps.length = 5 := rfl

lemma catalog_facts :
    ∀ step ∈ generate_hacking_steps,
      0 ≤ step.trace_increase ∧ step.required_skills ≠ [] ∧
        ∀ p ∈ step.required_skills, 1 ≤ p.2 := by
  intro step hstep
  fin_cases hstep <;> refine ⟨by norm_num, by simp, ?_⟩ <;> intro p hp <;>
    fin_cases hp <;> norm_num

/-- Key invariant of reachable states: the step catalog is the fixed
five-step list, the cursor never exceeds its length, and the completed
list is exactly the names of the steps before the cursor. -/
lemma reachable_state (sim : HackingSimulation) (h : Reachable sim) :
    sim.hacking_steps = generate_hacking_steps ∧
    sim.current_step ≤ 5 ∧
    sim.completed_steps
      = (generate_hacking_steps.take sim.current_step).map HackingStep.name := by
  induction h with
  | init d rng =>
      refine ⟨rfl, ?_, ?_⟩
      · show (0:ℕ) ≤ 5; omega
      · show ([] : List String)
            = (generate_hacking_steps.take 0).map HackingStep.name
        simp
  | step sim ps rng _ ih =>
      obtain ⟨h1, h2, h3⟩ := ih
      cases hget : sim.get_current_step with
      | none =>
          rw [attempt_step_no_step sim ps rng hget]
          exact ⟨h1, h2, h3⟩
      | some step =>
          cases hgate : findInsufficient ps step.required_skills with
          | some sk =>
              rw [attempt_step_gate_fail sim step sk ps rng hget hgate]
              exact ⟨h1, h2, h3⟩
          | none =>
              obtain ⟨hlt, hidx⟩ := get_current_step_eq_some hget
              rw [h1] at hidx
              rw [h1, generate_hacking_steps_length] at hlt
              by_cases hroll : rng 0 < finalChance step ps
              · rw [attempt_step_success_eq sim step ps rng hget hgate hroll]
                refine ⟨h1, ?_, ?_⟩
                · show sim.current_step + 1 ≤ 5
                  omega
                · show sim.completed_steps ++ [step.name]
                      = (generate_hacking_steps.take
                          (sim.current_step + 1)).map HackingStep.name
                  rw [List.take_succ, hidx, h3]
                  simp
              · rw [attempt_step_failure_eq sim step ps rng hget hgate hroll]
                exact ⟨h1, h2, h3⟩

/-! Concrete objects used to instantiate the theorems below. -/

def rngZero : ℕ → ℚ := fun _ => 0

def rngHigh : ℕ → ℚ := fun _ => 99/100

def rngHalf : ℕ → ℚ := fun _ => 1/2

def simA : HackingSimulation := HackingSimulation.init 3 rngZero

def stepA : HackingStep :=
  { name := "Initial Scan",
    description := "Scan the target system for vulnerabilities",
    required_skills := [("networking", 1), ("hacking", 1)],
    success_chance := 8/10, trace_increase := 5, time_cost := 10 }

def psA : List (String × ℤ) := [("networking", 1), ("hacking", 1)]

def simB : HackingSimulation := { simA with current_step := 1 }

def stepB : HackingStep :=
  { name := "Firewall Bypass",
    description := "Attempt to bypass the firewall",
    required_skills := [("hacking", 2), ("stealth", 1)],
    success_chance := 7/10, trace_increase := 10, time_cost := 15 }

def psZ : List (String × ℤ) :=
  [("hacking", 0), ("stealth", 0), ("networking", 0), ("programming", 0)]

def simC : HackingSimulation := { simA with current_step := 5 }

lemma skillBonus_stepA_psA : skillBonus stepA psA = 0 := by
  have h1 : dictGet psA "networking" 0 = 1 := rfl
  have h2 : dictGet psA "hacking" 0 = 1 := rfl
  simp [skillBonus, stepA, h1, h2]

lemma finalChance_stepA_psA : finalChance stepA psA = 8/10 := by
  rw [finalChance, skillBonus_stepA_psA]
  rw [show stepA.success_chance = 8/10 from rfl, add_zero]
  exact min_eq_right (by norm_num)

lemma rngZero_roll_stepA : rngZero 0 < finalChance stepA psA := by
  rw [finalChance_stepA_psA]
  norm_num [rngZero]

lemma rngHigh_roll_stepA : ¬ rngHigh 0 < finalChance stepA psA := by
  rw [finalChance_stepA_psA]
  norm_num [rngHigh]

/-- C1: with the current step in range and every required skill satisfied,
a passing success roll appends the step's name to `completed_steps`,
advances `current_step` by exactly one, and the trace cost returned and
applied equals the step's flat `trace_increase` plus, for each active
security system whose own detection draw falls below its
`detection_chance`, an extra `int(detection_chance * 10)`. -/
theorem C1_success_step (sim : HackingSimulation) (step : HackingStep)
    (ps : List (String × ℤ)) (rng : ℕ → ℚ)
    (hget : sim.get_current_step = some step)
    (hskills : ∀ p ∈ step.required_skills, p.2 ≤ dictGet ps p.1 0)
    (hroll : rng 0 < finalChance step ps) :
    (sim.attempt_step ps rng).1.completed_steps
        = sim.completed_steps ++ [step.name] ∧
    (sim.attempt_step ps rng).1.current_step = sim.current_step + 1 ∧
    (sim.attempt_step ps rng).2.trace_increase
        = step.trace_increase + detectionBonusIdx sim.security_systems rng 1 ∧
    (sim.attempt_step ps rng).1.trace_level
        = sim.trace_level + (sim.attempt_step ps rng).2.trace_increase ∧
    (sim.attempt_step ps rng).2.success = true := by
  have hgate := (findInsufficient_eq_none_iff ps step.required_skills).mpr hskills
  rw [attempt_step_success_eq sim step ps rng hget hgate hroll]
  refine ⟨rfl, rfl, ?_, rfl, rfl⟩
  show securityLoop rng 1 step.trace_increase sim.security_systems = _
  rw [securityLoop_eq_add, detectionBonus_eq_idx]

theorem C1_witness :
    rngZero 0 < finalChance stepA psA ∧
    (simA.attempt_step psA rngZero).1.completed_steps
        = simA.completed_steps ++ [stepA.name] ∧
    (simA.attempt_step psA rngZero).1.current_step = simA.current_step + 1 ∧
    (simA.attempt_step psA rngZero).2.trace_increase
        = stepA.trace_increase + detectionBonusIdx simA.security_systems rngZero 1 :=
  ⟨rngZero_roll_stepA,
   (C1_success_step simA stepA psA rngZero rfl (by decide) rngZero_roll_stepA).1,
   (C1_success_step simA stepA psA rngZero rfl (by decide) rngZero_roll_stepA).2.1,
   (C1_success_step simA stepA psA rngZero rfl (by decide) rngZero_roll_stepA).2.2.1⟩

/-- C2: with the current step in range and the skill gate passed, a failing
success roll leaves `current_step` (and `completed_steps`) unchanged and
adds to `trace_level` exactly `trace_increase * 2` plus the triggered
detection bonuses of the active security systems. -/
theorem C2_failed_step (sim : HackingSimulation) (step : HackingStep)
    (ps : List (String × ℤ)) (rng : ℕ → ℚ)
    (hget : sim.get_current_step = some step)
    (hskills : ∀ p ∈ step.required_skills, p.2 ≤ dictGet ps p.1 0)
    (hroll : ¬ rng 0 < finalChance step ps) :
    (sim.attempt_step ps rng).1.current_step = sim.current_step ∧
    (sim.attempt_step ps rng).1.completed_steps = sim.completed_steps ∧
    (sim.attempt_step ps rng).2.trace_increase
        = step.trace_increase * 2 + detectionBonusIdx sim.security_systems rng 1 ∧
    (sim.attempt_step ps rng).1.trace_level
        = sim.trace_level + (sim.attempt_step ps rng).2.trace_increase ∧
    (sim.attempt_step ps rng).2.success = false := by
  have hgate := (findInsufficient_eq_none_iff ps step.required_skills).mpr hskills
  rw [attempt_step_failure_eq sim step ps rng hget hgate hroll]
  refine ⟨rfl, rfl, ?_, rfl, rfl⟩
  show securityLoop rng 1 (step.trace_increase * 2) sim.security_systems = _
  rw [securityLoop_eq_add, detectionBonus_eq_idx]

theorem C2_witness :
    ¬ rngHigh 0 < finalChance stepA psA ∧
    (simA.attempt_step psA rngHigh).1.current_step = simA.current_step ∧
    (simA.attempt_step psA rngHigh).2.trace_increase
        = stepA.trace_increase * 2 + detectionBonusIdx simA.security_systems rngHigh 1 ∧
    (simA.attempt_step psA rngHigh).2.success = false :=
  ⟨rngHigh_roll_stepA,
   (C2_failed_step simA stepA psA rngHigh rfl (by decide) rngHigh_roll_stepA).1,
   (C2_failed_step simA stepA psA rngHigh rfl (by decide) rngHigh_roll_stepA).2.2.1,
   (C2_failed_step simA stepA psA rngHigh rfl (by decide) rngHigh_roll_stepA).2.2.2.2⟩

/-- C3: when some required skill of the current step is below its required
level, `attempt_step` returns failure with the insufficient-skill message
for the first failing skill and trace cost 0, and the whole state is
unchanged, regardless of the random draws. -/
theorem C3_insufficient_skill (sim : HackingSimulation) (step : HackingStep)
    (sk : String) (ps : List (String × ℤ)) (rng : ℕ → ℚ)
    (hget : sim.get_current_step = some step)
    (hfail : findInsufficient ps step.required_skills = some sk) :
    sim.attempt_step ps rng
        = (sim, ⟨false, "Insufficient " ++ sk ++ " skill level", 0⟩) ∧
    ∃ p ∈ step.required_skills, dictGet ps p.1 0 < p.2 := by
  refine ⟨attempt_step_gate_fail sim step sk ps rng hget hfail, ?_⟩
  exact (findInsufficient_isSome_iff ps step.required_skills).mp
    (by rw [hfail]; rfl)

theorem C3_witness :
    simB.attempt_step psZ rngZero
      = (simB, ⟨false, "Insufficient hacking skill level", 0⟩) :=
  (C3_insufficient_skill simB stepB "hacking" psZ rngZero rfl rfl).1

/-- C5: the effective success probability used by `attempt_step` is
`min(0.95, base_chance + skill bonus)`; it is never above `0.95`, and the
success draw is compared against exactly this value. -/
theorem C5_final_chance (sim : HackingSimulation) (step : HackingStep)
    (ps : List (String × ℤ)) (rng : ℕ → ℚ)
    (hget : sim.get_current_step = some step)
    (hgate : findInsufficient ps step.required_skills = none) :
    finalChance step ps
        = min (95/100 : ℚ) (step.success_chance + skillBonus step ps) ∧
    finalChance step ps ≤ 95/100 ∧
    (sim.attempt_step ps rng).2.success = decide (rng 0 < finalChance step ps) := by
  refine ⟨rfl, min_le_left _ _, ?_⟩
  by_cases hroll : rng 0 < finalChance step ps
  · rw [attempt_step_success_eq sim step ps rng hget hgate hroll]
    simp [hroll]
  · rw [attempt_step_failure_eq sim step ps rng hget hgate hroll]
    simp [hroll]

theorem C5_witness :
    finalChance stepA psA
        = min (95/100 : ℚ) (stepA.success_chance + skillBonus stepA psA) ∧
    finalChance stepA psA ≤ 95/100 ∧
    (simA.attempt_step psA rngZero).2.success
        = decide (rngZero 0 < finalChance stepA psA) :=
  C5_final_chance simA stepA psA rngZero rfl rfl

/-- C8: once the catalog is exhausted (`current_step ≥ 5` with the default
five-step catalog), `attempt_step` returns the no-more-steps result with
trace cost 0 and changes nothing. -/
theorem C8_exhausted (sim : HackingSimulation) (ps : List (String × ℤ))
    (rng : ℕ → ℚ)
    (hsteps : sim.hacking_steps = generate_hacking_steps)
    (h5 : 5 ≤ sim.current_step) :
    sim.attempt_step ps rng = (sim, ⟨false, "No more steps available", 0⟩) := by
  apply attempt_step_no_step
  apply get_current_step_eq_none
  rw [hsteps, generate_hacking_steps_length]
  omega

theorem C8_witness :
    5 ≤ simC.current_step ∧
    simC.attempt_step psZ rngHigh
      = (simC, ⟨false, "No more steps available", 0⟩) :=
  ⟨by decide, C8_exhausted simC psZ rngHigh rfl (by decide)⟩

/-- C4 fails as stated: at difficulty 0 the generated levels are
`[1, 1, 0, 1]`, so the Access Control system's level is `0`, not
`max(1, 0 - 0) = 1` — the code applies no `max(1, _)` floor to the third
system. -/
theorem C4_counterexample :
    (generate_security_systems 0 rngZero).map SecuritySystem.level
        = [1, 1, 0, 1] ∧
    ¬ ((0:ℤ) = max 1 ((0:ℤ) - 0)) := by
  constructor
  · rfl
  · norm_num

/-- C4 (amended): the constructor generates exactly the four named systems
with levels `max(1, d-1)`, `max(1, d-2)`, `d` (no floor), and
`max(1, d-1)`; for every difficulty `d ≥ 1` all four levels are `≥ 1`. -/
theorem C4_amended_levels (d : ℤ) (rng : ℕ → ℚ) :
    (generate_security_systems d rng).map (fun s => (s.name, s.level))
        = [("Firewall", max 1 (d-1)), ("Intrusion Detection", max 1 (d-2)),
           ("Access Control", d), ("Encryption", max 1 (d-1))] ∧
    (1 ≤ d → ∀ s ∈ generate_security_systems d rng, 1 ≤ s.level) := by
  constructor
  · rfl
  · intro hd s hs
    simp only [generate_security_systems, activateSystems,
      SecuritySystem.make, List.mem_cons, List.not_mem_nil, or_false] at hs
    rcases hs with h | h | h | h <;> subst h
    · exact le_max_left 1 (d-1)
    · exact le_max_left 1 (d-2)
    · exact hd
    · exact le_max_left 1 (d-1)

theorem C4_amended_witness :
    (generate_security_systems 1 rngZero).map (fun s => (s.name, s.level))
        = [("Firewall", 1), ("Intrusion Detection", 1),
           ("Access Control", 1), ("Encryption", 1)] ∧
    (generate_security_systems 1 rngZero).all (fun s => decide (1 ≤ s.level))
        = true := by
  constructor
  · rw [(C4_amended_levels 1 rngZero).1]
    decide
  · have h := (C4_amended_levels 1 rngZero).2 (by norm_num)
    rw [List.all_eq_true]
    intro s hs
    exact decide_eq_true (h s hs)

/-- C6: in every reachable state of the simulation, `is_complete()` holds
iff `current_step` equals 5, the length of the default catalog. -/
theorem C6_complete_iff (sim : HackingSimulation) (h : Reachable sim) :
    sim.is_complete = true ↔ sim.current_step = 5 := by
  obtain ⟨h1, h2, -⟩ := reachable_state sim h
  simp only [HackingSimulation.is_complete, h1, generate_hacking_steps_length,
    decide_eq_true_eq]
  omega

theorem C6_witness :
    (HackingSimulation.init 3 rngZero).is_complete = true
      ↔ (HackingSimulation.init 3 rngZero).current_step = 5 :=
  C6_complete_iff _ (Reachable.init 3 rngZero)

/-- C7: `current_step` starts at 0, an `attempt_step` call from a
reachable state never decreases it, increases it by at most one, and
increases it exactly when the call succeeds; `trace_level` starts at 0
and never decreases (draws are nonnegative, as `random.random()` is). -/
theorem C7_monotone (sim : HackingSimulation) (ps : List (String × ℤ))
    (rng : ℕ → ℚ) (hR : Reachable sim) (hrng : ∀ j, 0 ≤ rng j) :
    sim.current_step ≤ (sim.attempt_step ps rng).1.current_step ∧
    (sim.attempt_step ps rng).1.current_step ≤ sim.current_step + 1 ∧
    ((sim.attempt_step ps rng).1.current_step = sim.current_step + 1
        ↔ (sim.attempt_step ps rng).2.success = true) ∧
    sim.trace_level ≤ (sim.attempt_step ps rng).1.trace_level ∧
    (∀ (d : ℤ) (r : ℕ → ℚ), (HackingSimulation.init d r).current_step = 0
        ∧ (HackingSimulation.init d r).trace_level = 0) := by
  obtain ⟨h1, h2, h3⟩ := reachable_state sim hR
  cases hget : sim.get_current_step with
  | none =>
      rw [attempt_step_no_step sim ps rng hget]
      exact ⟨le_refl _, Nat.le_succ _, by simp, le_refl _, fun d r => ⟨rfl, rfl⟩⟩
  | some step =>
      have hmem : step ∈ generate_hacking_steps := by
        obtain ⟨hlt, hidx⟩ := get_current_step_eq_some hget
        rw [h1] at hidx
        exact List.getElem?_mem hidx
      have hti : 0 ≤ step.trace_increase := (catalog_facts step hmem).1
      cases hgate : findInsufficient ps step.required_skills with
      | some sk =>
          rw [attempt_step_gate_fail sim step sk ps rng hget hgate]
          exact ⟨le_refl _, Nat.le_succ _, by simp, le_refl _, fun d r => ⟨rfl, rfl⟩⟩
      | none =>
          by_cases hroll : rng 0 < finalChance step ps
          · rw [attempt_step_success_eq sim step ps rng hget hgate hroll]
            refine ⟨?_, ?_, by simp, ?_, fun d r => ⟨rfl, rfl⟩⟩
            · show sim.current_step ≤ sim.current_step + 1; omega
            · show sim.current_step + 1 ≤ sim.current_step + 1; omega
            · show sim.trace_level ≤ sim.trace_level
                  + securityLoop rng 1 step.trace_increase sim.security_systems
              have hge := le_securityLoop rng hrng sim.security_systems 1
                step.trace_increase
              omega
          · rw [attempt_step_failure_eq sim step ps rng hget hgate hroll]
            refine ⟨le_refl _, Nat.le_succ _, by simp, ?_, fun d r => ⟨rfl, rfl⟩⟩
            show sim.trace_level ≤ sim.trace_level
                + securityLoop rng 1 (step.trace_increase * 2) sim.security_systems
            have hge := le_securityLoop rng hrng sim.security_systems 1
              (step.trace_increase * 2)
            omega

theorem C7_witness :
    simA.current_step ≤ (simA.attempt_step psZ rngHalf).1.current_step ∧
    (simA.attempt_step psZ rngHalf).1.current_step ≤ simA.current_step + 1 ∧
    simA.trace_level ≤ (simA.attempt_step psZ rngHalf).1.trace_level ∧
    (HackingSimulation.init 2 rngHalf).current_step = 0 ∧
    (HackingSimulation.init 2 rngHalf).trace_level = 0 :=
  have h := C7_monotone simA psZ rngHalf (Reachable.init 3 rngZero)
    (fun j => by norm_num [rngHalf])
  ⟨h.1, h.2.1, h.2.2.2.1, (h.2.2.2.2 2 rngHalf).1, (h.2.2.2.2 2 rngHalf).2⟩

/-- C9: in every reachable state, `completed_steps` is exactly the list of
names of the catalog steps before the cursor, in catalog order, so its
length equals `current_step`. -/
theorem C9_completed_prefix (sim : HackingSimulation) (h : Reachable sim) :
    sim.completed_steps
        = (generate_hacking_steps.take sim.current_step).map HackingStep.name ∧
    sim.completed_steps.length = sim.current_step := by
  obtain ⟨h1, h2, h3⟩ := reachable_state sim h
  refine ⟨h3, ?_⟩
  rw [h3, List.length_map, List.length_take, generate_hacking_steps_length]
  omega

theorem C9_witness :
    (HackingSimulation.init 3 rngZero).completed_steps
        = (generate_hacking_steps.take
            (HackingSimulation.init 3 rngZero).current_step).map HackingStep.name ∧
    (HackingSimulation.init 3 rngZero).completed_steps.length
        = (HackingSimulation.init 3 rngZero).current_step :=
  C9_completed_prefix _ (Reachable.init 3 rngZero)

/-- C10: an absent skill is read as level 0; every step of the default
catalog requires each listed skill at level at least 1; hence an attempt
with the empty skill dictionary at any cursor position below 5 fails the
gate with trace cost 0 and no state change. -/
theorem C10_empty_skills (sim : HackingSimulation) (rng : ℕ → ℚ)
    (hsteps : sim.hacking_steps = generate_hacking_steps)
    (hlt : sim.current_step < 5) :
    (∀ k : String, dictGet [] k 0 = 0) ∧
    (∀ step ∈ generate_hacking_steps, ∀ p ∈ step.required_skills, 1 ≤ p.2) ∧
    (sim.attempt_step [] rng).1 = sim ∧
    (sim.attempt_step [] rng).2.success = false ∧
    (sim.attempt_step [] rng).2.trace_increase = 0 := by
  have hlt' : sim.current_step < sim.hacking_steps.length := by
    rw [hsteps, generate_hacking_steps_length]; exact hlt
  have hget : sim.get_current_step
      = some (sim.hacking_steps.get ⟨sim.current_step, hlt'⟩) := by
    unfold HackingSimulation.get_current_step
    rw [dif_pos hlt']
  set step := sim.hacking_steps.get ⟨sim.current_step, hlt'⟩ with hstepdef
  have hmem : step ∈ generate_hacking_steps := by
    rw [← hsteps]
    exact List.get_mem sim.hacking_steps sim.current_step hlt'
  obtain ⟨-, hne, hreq⟩ := catalog_facts step hmem
  have hfail : (findInsufficient ([] : List (String × ℤ))
      step.required_skills).isSome = true := by
    rw [findInsufficient_isSome_iff]
    obtain ⟨p, hp⟩ := List.exists_mem_of_ne_nil step.required_skills hne
    exact ⟨p, hp, by have := hreq p hp; simp [dictGet]; omega⟩
  obtain ⟨sk, hsk⟩ := Option.isSome_iff_exists.mp hfail
  rw [attempt_step_gate_fail sim step sk [] rng hget hsk]
  exact ⟨fun k => rfl, fun st hst => ((catalog_facts st hst).2.2), rfl, rfl, rfl⟩

theorem C10_witness :
    simA.current_step < 5 ∧
    (simA.attempt_step [] rngHalf).1 = simA ∧
    (simA.attempt_step [] rngHalf).2.success = false ∧
    (simA.attempt_step [] rngHalf).2.trace_increase = 0 :=
  have h := C10_empty_skills simA rngHalf rfl (by decide)
  ⟨by decide, h.2.2.1, h.2.2.2.1, h.2.2.2.2⟩

end SysShadow
